import Mathlib

/-!
Shallow embedding of the bucket planner (`src/download.rs`), the streaming
demultiplexing pipeline (`src/download_internals.rs`) and the download
coordinator's worker body, together with proofs of the spec claims.

Modelling conventions:
* Rust `usize` values are `Nat`; all arithmetic in the modelled code paths is
  addition/subtraction that cannot overflow at `usize` width for realistic
  inputs, and the subtractions (`remaining -= size`) are shown in-bounds.
* The manifest `HashMap` is modelled as an association list processed in list
  order; `HashMap` iteration order is arbitrary in Rust, and every claim
  proved about the planner is membership-based, hence order-independent.
* Filesystem side effects (`create_dir_all`) have no bearing on any claim and
  are not modelled; a destination file is modelled as a `List Nat` of bytes,
  extended with zero bytes when a write lands past the current end, which is
  exactly the visible behaviour of seek-past-EOF plus write on a real file.
* The md5 digest is modelled by the exact byte sequence fed to the hasher; the
  coordinator's hex-encoded digest is obtained through an arbitrary function
  parameter `hexDigest`, so every theorem quantifying over `hexDigest` holds
  for the real `hex::encode ∘ md5` in particular.
-/

/-! ## Data model (`src/models.rs`) -/

structure DropChunk where
  permissions : Nat
  ids : List String
  checksums : List String
  lengths : List Nat
  version_name : String
deriving DecidableEq

structure DownloadDrop where
  index : Nat
  filename : String
  path : String
  start : Nat
  length : Nat
  checksum : String
  permissions : Nat
deriving DecidableEq

instance : Inhabited DownloadDrop := ⟨⟨0, "", "", 0, 0, "", 0⟩⟩

structure DownloadBucket where
  game_id : String
  version : String
  drops : List DownloadDrop
deriving DecidableEq

/-! ## Planner constants (`src/download.rs` lines 12-15) -/

def RETRY_COUNT : Nat := 3

def TARGET_BUCKET_SIZE : Nat := 63 * 1000 * 1000

def MAX_FILES_PER_BUCKET : Nat := (1024 / 4) - 1

/-! ## Association-list model of the per-version `HashMap` state -/

def alistFind (k : String) : List (String × α) → Option α
  | [] => none
  | (k', v) :: rest => if k' = k then some v else alistFind k rest

def alistInsert (k : String) (v : α) : List (String × α) → List (String × α)
  | [] => [(k, v)]
  | (k', v') :: rest =>
      if k' = k then (k, v) :: rest else (k', v') :: alistInsert k v rest

/-! ## Drop derivation (`src/download.rs` lines 32-44)

One Drop per chunk range, with a running file offset.  Rust indexes
`chunk.checksums[index]`, which panics when out of bounds; the spec's chunk
invariant (`len(lengths) == len(checksums)`) keeps it in bounds, and no claim
depends on checksum values, so the model uses `getD` with a default. -/

def chunkDropsAux (rawPath installDir : String) (chunk : DropChunk) :
    Nat → Nat → List Nat → List DownloadDrop
  | _, _, [] => []
  | index, off, l :: ls =>
      { index := index
        filename := rawPath
        path := installDir ++ "/" ++ rawPath
        start := off
        length := l
        checksum := chunk.checksums.getD index ""
        permissions := chunk.permissions } ::
        chunkDropsAux rawPath installDir chunk (index + 1) (off + l) ls

def chunkDrops (rawPath installDir : String) (chunk : DropChunk) : List DownloadDrop :=
  chunkDropsAux rawPath installDir chunk 0 0 chunk.lengths

/-! ## The planner fold (`src/download.rs` lines 17-90) -/

structure PlanState where
  buckets : List DownloadBucket
  current : List (String × (DownloadBucket × Nat))
deriving DecidableEq

/-- The per-version open bucket and its running byte total, defaulting to a
fresh empty bucket and zero (the `entry(..).or_insert_with(..)` pair,
`src/download.rs` lines 58-65). -/
def openEntry (gameId version : String) (st : PlanState) : DownloadBucket × Nat :=
  (alistFind version st.current).getD (⟨gameId, version, []⟩, 0)

/-- The seal test of `src/download.rs` line 67: the open bucket is non-empty
and either the running total plus the Drop's length reaches `t` or the open
bucket already holds `maxF` Drops. -/
def sealCond (t maxF : Nat) (e : DownloadBucket × Nat) (d : DownloadDrop) : Prop :=
  (t ≤ e.2 + d.length ∨ maxF ≤ e.1.drops.length) ∧ e.1.drops ≠ []

instance (t maxF : Nat) (e : DownloadBucket × Nat) (d : DownloadDrop) :
    Decidable (sealCond t maxF e d) :=
  inferInstanceAs (Decidable (_ ∧ _))

/-- The accumulation path for a Drop below the threshold
(`src/download.rs` lines 58-79): seal the open bucket when `sealCond` holds,
then append the Drop whole to the (possibly fresh) open bucket. -/
def stepSmall (gameId version : String) (t maxF : Nat) (st : PlanState)
    (d : DownloadDrop) : PlanState :=
  let e := openEntry gameId version st
  if sealCond t maxF e d then
    { buckets := st.buckets ++ [e.1]
      current := alistInsert version (⟨gameId, version, [d]⟩, d.length) st.current }
  else
    { buckets := st.buckets
      current :=
        alistInsert version
          ({ e.1 with drops := e.1.drops ++ [d] }, e.2 + d.length) st.current }

/-- One iteration of the inner loop of `generate_buckets` for one derived
Drop (`src/download.rs` lines 46-80), parameterized by the bucket-size target
`t` and the drop-count cap `maxF`.  A Drop at or above the threshold gets its
own solo bucket immediately (lines 46-56). -/
def stepDrop (gameId version : String) (t maxF : Nat) (st : PlanState)
    (d : DownloadDrop) : PlanState :=
  if t ≤ d.length then
    { st with buckets := st.buckets ++ [⟨gameId, version, [d]⟩] }
  else
    stepSmall gameId version t maxF st d

/-- `generate_buckets`, parameterized by the two planning constants so the
spec's lowered-threshold test scenario is statable.  The final flush
(`src/download.rs` lines 83-87) appends every non-empty open bucket. -/
def generateBucketsWith (gameId installDir : String) (t maxF : Nat)
    (manifest : List (String × DropChunk)) : List DownloadBucket :=
  let st :=
    manifest.foldl
      (fun st e =>
        (chunkDrops e.1 installDir e.2).foldl
          (stepDrop gameId e.2.version_name t maxF) st)
      ⟨[], []⟩
  st.buckets ++ (st.current.map (fun e => e.2.1)).filter (fun b => !b.drops.isEmpty)

/-- `generate_buckets` with the real constants (`src/download.rs` line 17). -/
def generate_buckets (gameId installDir : String)
    (manifest : List (String × DropChunk)) : List DownloadBucket :=
  generateBucketsWith gameId installDir TARGET_BUCKET_SIZE MAX_FILES_PER_BUCKET manifest

/-! ## Bucket classification predicates (for claim C1) -/

def sumLen (ds : List DownloadDrop) : Nat := (ds.map (fun d => d.length)).sum

/-- The bucket holds exactly one Drop and that Drop's length is at or above
the threshold `t` (an "oversized solo bucket"). -/
def isOversizedSolo (t : Nat) (b : DownloadBucket) : Bool :=
  match b.drops with
  | [d] => decide (t ≤ d.length)
  | _ => false

/-- The bucket holds between 1 and `maxF` Drops whose summed length is
strictly below `t`. -/
def isSmallBucket (t maxF : Nat) (b : DownloadBucket) : Bool :=
  decide (1 ≤ b.drops.length) && decide (b.drops.length ≤ maxF) &&
    decide (sumLen b.drops < t)

/-! ## Association-list lemmas -/

theorem alistFind_mem {α : Type} {k : String} {v : α} :
    ∀ {l : List (String × α)}, alistFind k l = some v → (k, v) ∈ l := by
  intro l
  induction l with
  | nil => intro h; simp [alistFind] at h
  | cons p rest ih =>
    intro h
    by_cases hk : p.1 = k
    · obtain ⟨k', v'⟩ := p
      simp only at hk
      subst hk
      have hv : v' = v := by simpa [alistFind] using h
      subst hv
      exact List.mem_cons_self _ _
    · have h' : alistFind k rest = some v := by
        simpa [alistFind, hk] using h
      exact List.mem_cons_of_mem _ (ih h')

theorem mem_alistInsert {α : Type} {k : String} {v : α} {e : String × α} :
    ∀ {l : List (String × α)}, e ∈ alistInsert k v l → e = (k, v) ∨ e ∈ l := by
  intro l
  induction l with
  | nil => intro h; left; simpa [alistInsert] using h
  | cons p rest ih =>
    intro h
    by_cases hk : p.1 = k
    · rcases by simpa [alistInsert, hk] using h with h' | h'
      · left; exact h'
      · right; exact List.mem_cons_of_mem _ h'
    · rcases by simpa [alistInsert, hk] using h with h' | h'
      · right; simp [h']
      · rcases ih h' with h'' | h''
        · left; exact h''
        · right; exact List.mem_cons_of_mem _ h''

theorem alistFind_alistInsert {α : Type} (k : String) (v : α) :
    ∀ (l : List (String × α)), alistFind k (alistInsert k v l) = some v := by
  intro l
  induction l with
  | nil => simp [alistInsert, alistFind]
  | cons p rest ih =>
    by_cases hk : p.1 = k
    · simp [alistInsert, alistFind, hk]
    · simp [alistInsert, alistFind, hk, ih]

/-! ## `sumLen` lemmas -/

@[simp] theorem sumLen_nil : sumLen [] = 0 := rfl

@[simp] theorem sumLen_cons (d : DownloadDrop) (ds : List DownloadDrop) :
    sumLen (d :: ds) = d.length + sumLen ds := by
  simp [sumLen]

@[simp] theorem sumLen_append (ds es : List DownloadDrop) :
    sumLen (ds ++ es) = sumLen ds + sumLen es := by
  simp [sumLen]

theorem length_le_sumLen {d : DownloadDrop} :
    ∀ {ds : List DownloadDrop}, d ∈ ds → d.length ≤ sumLen ds := by
  intro ds
  induction ds with
  | nil => intro h; cases h
  | cons a rest ih =>
    intro h
    rcases List.mem_cons.mp h with h' | h'
    · subst h'; simp
    · calc d.length ≤ sumLen rest := ih h'
        _ ≤ a.length + sumLen rest := Nat.le_add_left _ _
        _ = sumLen (a :: rest) := (sumLen_cons a rest).symm

/-! ## Bucket classification lemmas -/

theorem isOversizedSolo_iff (t : Nat) (b : DownloadBucket) :
    isOversizedSolo t b = true ↔ ∃ d, b.drops = [d] ∧ t ≤ d.length := by
  cases hb : b.drops with
  | nil => simp [isOversizedSolo, hb]
  | cons d rest =>
    cases rest with
    | nil => simp [isOversizedSolo, hb]
    | cons d2 r2 => simp [isOversizedSolo, hb]

theorem isSmallBucket_iff (t maxF : Nat) (b : DownloadBucket) :
    isSmallBucket t maxF b = true ↔
      1 ≤ b.drops.length ∧ b.drops.length ≤ maxF ∧ sumLen b.drops < t := by
  simp [isSmallBucket, and_assoc]

/-- Exactly one of the two bucket forms holds. -/
def GoodBucket (t maxF : Nat) (b : DownloadBucket) : Prop :=
  Bool.xor (isOversizedSolo t b) (isSmallBucket t maxF b) = true

theorem good_of_solo {t maxF : Nat} {b : DownloadBucket}
    (h : isOversizedSolo t b = true) : GoodBucket t maxF b := by
  obtain ⟨d, hd, hdl⟩ := (isOversizedSolo_iff t b).mp h
  have hsmall : isSmallBucket t maxF b = false := by
    rw [← Bool.not_eq_true, isSmallBucket_iff]
    intro hc
    have : sumLen b.drops < t := hc.2.2
    rw [hd] at this
    simp at this
    omega
  unfold GoodBucket
  rw [h, hsmall]
  rfl

theorem good_of_small {t maxF : Nat} {b : DownloadBucket}
    (h : isSmallBucket t maxF b = true) : GoodBucket t maxF b := by
  have hsum : sumLen b.drops < t := ((isSmallBucket_iff t maxF b).mp h).2.2
  have hsolo : isOversizedSolo t b = false := by
    rw [← Bool.not_eq_true, isOversizedSolo_iff]
    rintro ⟨d, hd, hdl⟩
    rw [hd] at hsum
    simp at hsum
    omega
  unfold GoodBucket
  rw [h, hsolo]
  rfl

/-! ## The planner invariant -/

/-- Invariant of one per-version open entry: the tracked size is the real
summed length, which is below the threshold, and the drop count is capped. -/
def EntryOk (t maxF : Nat) (e : DownloadBucket × Nat) : Prop :=
  e.2 = sumLen e.1.drops ∧ sumLen e.1.drops < t ∧ e.1.drops.length ≤ maxF

def StateOk (t maxF : Nat) (st : PlanState) : Prop :=
  (∀ b ∈ st.buckets, GoodBucket t maxF b) ∧ (∀ e ∈ st.current, EntryOk t maxF e.2)

theorem openEntry_ok {t maxF : Nat} (gameId version : String) {st : PlanState}
    (ht : 0 < t) (hC : ∀ e ∈ st.current, EntryOk t maxF e.2) :
    EntryOk t maxF (openEntry gameId version st) := by
  unfold openEntry
  cases hf : alistFind version st.current with
  | none => exact ⟨rfl, by simpa [sumLen] using ht, by simp⟩
  | some v => exact hC (version, v) (alistFind_mem hf)

theorem stepSmall_ok (gameId version : String) {t maxF : Nat} (st : PlanState)
    (d : DownloadDrop) (ht : 0 < t) (hm : 1 ≤ maxF) (hd : d.length < t)
    (h : StateOk t maxF st) : StateOk t maxF (stepSmall gameId version t maxF st d) := by
  obtain ⟨hB, hC⟩ := h
  obtain ⟨hsz, hsum, hcount⟩ := @openEntry_ok t maxF gameId version st ht hC
  unfold stepSmall
  by_cases hs : sealCond t maxF (openEntry gameId version st) d
  · simp only [if_pos hs]
    constructor
    · intro b hb
      rcases List.mem_append.mp hb with hb | hb
      · exact hB b hb
      · have hb' : b = (openEntry gameId version st).1 := List.mem_singleton.mp hb
        subst hb'
        apply good_of_small
        rw [isSmallBucket_iff]
        refine ⟨?_, hcount, hsum⟩
        exact List.length_pos.mpr hs.2
    · intro e he
      rcases mem_alistInsert he with he | he
      · rw [he]
        refine ⟨by simp, ?_, by simpa using hm⟩
        simpa using hd
      · exact hC e he
  · simp only [if_neg hs]
    refine ⟨hB, ?_⟩
    intro e he
    rcases mem_alistInsert he with he | he
    · rw [he]
      unfold sealCond at hs
      by_cases hne : (openEntry gameId version st).1.drops = []
      · have hz : (openEntry gameId version st).2 = 0 := by
          rw [hsz, hne]; rfl
        refine ⟨by simp [hsz], ?_, ?_⟩
        · rw [hne]; simpa using hd
        · rw [hne]; simpa using hm
      · obtain ⟨hlt, hcap⟩ := not_or.mp (fun hab => hs ⟨hab, hne⟩)
        refine ⟨by simp [hsz], ?_, ?_⟩
        · simp only [sumLen_append]
          have : sumLen [d] = d.length := by simp
          rw [this, ← hsz]
          omega
        · simp only [List.length_append, List.length_singleton]
          omega
    · exact hC e he

theorem stepDrop_ok (gameId version : String) {t maxF : Nat} (st : PlanState)
    (d : DownloadDrop) (ht : 0 < t) (hm : 1 ≤ maxF) (h : StateOk t maxF st) :
    StateOk t maxF (stepDrop gameId version t maxF st d) := by
  unfold stepDrop
  by_cases hlen : t ≤ d.length
  · simp only [if_pos hlen]
    refine ⟨?_, h.2⟩
    intro b hb
    rcases List.mem_append.mp hb with hb | hb
    · exact h.1 b hb
    · have hb' : b = ⟨gameId, version, [d]⟩ := List.mem_singleton.mp hb
      subst hb'
      apply good_of_solo
      rw [isOversizedSolo_iff]
      exact ⟨d, rfl, hlen⟩
  · simp only [if_neg hlen]
    exact stepSmall_ok gameId version st d ht hm (Nat.lt_of_not_le hlen) h

theorem foldl_stepDrop_ok (gameId version : String) {t maxF : Nat}
    (ds : List DownloadDrop) (st : PlanState) (ht : 0 < t) (hm : 1 ≤ maxF)
    (h : StateOk t maxF st) :
    StateOk t maxF (ds.foldl (stepDrop gameId version t maxF) st) := by
  induction ds generalizing st with
  | nil => exact h
  | cons d ds ih => exact ih _ (stepDrop_ok gameId version st d ht hm h)

theorem generateBucketsWith_good (gameId installDir : String) {t maxF : Nat}
    (manifest : List (String × DropChunk)) (ht : 0 < t) (hm : 1 ≤ maxF) :
    ∀ b ∈ generateBucketsWith gameId installDir t maxF manifest,
      GoodBucket t maxF b := by
  intro b hb
  unfold generateBucketsWith at hb
  have hok :
      StateOk t maxF
        (manifest.foldl
          (fun st e =>
            (chunkDrops e.1 installDir e.2).foldl
              (stepDrop gameId e.2.version_name t maxF) st)
          ⟨[], []⟩) := by
    have h0 : StateOk t maxF ⟨[], []⟩ := ⟨by simp, by simp⟩
    clear hb
    generalize (⟨[], []⟩ : PlanState) = st0 at h0 ⊢
    induction manifest generalizing st0 with
    | nil => exact h0
    | cons p rest ih =>
      exact ih _ (foldl_stepDrop_ok gameId p.2.version_name _ st0 ht hm h0)
  rcases List.mem_append.mp hb with hb | hb
  · exact hok.1 b hb
  · rw [List.mem_filter] at hb
    obtain ⟨hmem, hne⟩ := hb
    rw [List.mem_map] at hmem
    obtain ⟨e, he, hbe⟩ := hmem
    have hE := hok.2 e he
    apply good_of_small
    rw [isSmallBucket_iff]
    have hne' : b.drops ≠ [] := by
      intro hz
      rw [hz] at hne
      simp at hne
    subst hbe
    exact ⟨List.length_pos.mpr hne', hE.2.2, hE.2.1⟩

/-- C1: For every manifest, every bucket in the sequence returned by
`generate_buckets` satisfies exactly one of: (a) it contains exactly one Drop
whose length is at or above `TARGET_BUCKET_SIZE` (63,000,000 bytes), or (b)
it contains between 1 and `MAX_FILES_PER_BUCKET` (255) Drops whose summed
lengths are strictly less than `TARGET_BUCKET_SIZE`; in particular every Drop
with length at or above the threshold appears alone in its own bucket, and no
returned bucket is empty. -/
theorem c1_bucket_invariants (gameId installDir : String)
    (manifest : List (String × DropChunk)) (b : DownloadBucket)
    (hb : b ∈ generate_buckets gameId installDir manifest) :
    Bool.xor (isOversizedSolo TARGET_BUCKET_SIZE b)
        (isSmallBucket TARGET_BUCKET_SIZE MAX_FILES_PER_BUCKET b) = true ∧
    (∀ d ∈ b.drops, TARGET_BUCKET_SIZE ≤ d.length → b.drops = [d]) ∧
    b.drops ≠ [] := by
  have hg : GoodBucket TARGET_BUCKET_SIZE MAX_FILES_PER_BUCKET b :=
    generateBucketsWith_good gameId installDir manifest (by decide) (by decide) b hb
  have hx : Bool.xor (isOversizedSolo TARGET_BUCKET_SIZE b)
      (isSmallBucket TARGET_BUCKET_SIZE MAX_FILES_PER_BUCKET b) = true := hg
  refine ⟨hx, ?_, ?_⟩
  · intro d hd hdl
    cases hsolo : isOversizedSolo TARGET_BUCKET_SIZE b with
    | true =>
      obtain ⟨d', hd', _⟩ := (isOversizedSolo_iff _ _).mp hsolo
      rw [hd'] at hd
      have : d = d' := List.mem_singleton.mp hd
      rw [hd', this]
    | false =>
      have hsmall : isSmallBucket TARGET_BUCKET_SIZE MAX_FILES_PER_BUCKET b = true := by
        rw [hsolo] at hx
        simpa using hx
      have hsum : sumLen b.drops < TARGET_BUCKET_SIZE :=
        ((isSmallBucket_iff _ _ _).mp hsmall).2.2
      have := length_le_sumLen hd
      omega
  · cases hsolo : isOversizedSolo TARGET_BUCKET_SIZE b with
    | true =>
      obtain ⟨d', hd', _⟩ := (isOversizedSolo_iff _ _).mp hsolo
      rw [hd']
      simp
    | false =>
      have hsmall : isSmallBucket TARGET_BUCKET_SIZE MAX_FILES_PER_BUCKET b = true := by
        rw [hsolo] at hx
        simpa using hx
      have hpos : 1 ≤ b.drops.length := ((isSmallBucket_iff _ _ _).mp hsmall).1
      intro hz
      rw [hz] at hpos
      simp at hpos

/-- Witness for C1 at a concrete one-chunk manifest. -/
theorem c1_bucket_invariants_witness :
    ((⟨"g", "v", [⟨0, "a.bin", "dir/a.bin", 0, 10, "c", 0⟩]⟩ : DownloadBucket) ∈
        generate_buckets "g" "dir" [("a.bin", ⟨0, [], ["c"], [10], "v"⟩)]) ∧
      (Bool.xor
          (isOversizedSolo TARGET_BUCKET_SIZE
            (⟨"g", "v", [⟨0, "a.bin", "dir/a.bin", 0, 10, "c", 0⟩]⟩ : DownloadBucket))
          (isSmallBucket TARGET_BUCKET_SIZE MAX_FILES_PER_BUCKET
            (⟨"g", "v", [⟨0, "a.bin", "dir/a.bin", 0, 10, "c", 0⟩]⟩ : DownloadBucket)) = true ∧
        (∀ d ∈ (⟨"g", "v", [⟨0, "a.bin", "dir/a.bin", 0, 10, "c", 0⟩]⟩ : DownloadBucket).drops,
            TARGET_BUCKET_SIZE ≤ d.length →
              (⟨"g", "v", [⟨0, "a.bin", "dir/a.bin", 0, 10, "c", 0⟩]⟩ : DownloadBucket).drops = [d]) ∧
        (⟨"g", "v", [⟨0, "a.bin", "dir/a.bin", 0, 10, "c", 0⟩]⟩ : DownloadBucket).drops ≠ []) :=
  ⟨by decide,
    c1_bucket_invariants "g" "dir" [("a.bin", ⟨0, [], ["c"], [10], "v"⟩)]
      ⟨"g", "v", [⟨0, "a.bin", "dir/a.bin", 0, 10, "c", 0⟩]⟩ (by decide)⟩

/-! ## Drop-derivation lemmas (for claim C5) -/

theorem chunkDropsAux_map_length (rawPath installDir : String) (chunk : DropChunk) :
    ∀ (ls : List Nat) (index off : Nat),
      (chunkDropsAux rawPath installDir chunk index off ls).map (fun d => d.length) = ls := by
  intro ls
  induction ls with
  | nil => intro index off; rfl
  | cons l rest ih =>
    intro index off
    simp [chunkDropsAux, ih]

theorem chunkDropsAux_length (rawPath installDir : String) (chunk : DropChunk)
    (ls : List Nat) (index off : Nat) :
    (chunkDropsAux rawPath installDir chunk index off ls).length = ls.length := by
  have := chunkDropsAux_map_length rawPath installDir chunk ls index off
  calc (chunkDropsAux rawPath installDir chunk index off ls).length
      = ((chunkDropsAux rawPath installDir chunk index off ls).map (fun d => d.length)).length :=
        (List.length_map _ _).symm
    _ = ls.length := by rw [this]

theorem chunkDropsAux_getD_start (rawPath installDir : String) (chunk : DropChunk) :
    ∀ (ls : List Nat) (i index off : Nat), i < ls.length →
      ((chunkDropsAux rawPath installDir chunk index off ls).getD i default).start =
        off + (ls.take i).sum := by
  intro ls
  induction ls with
  | nil => intro i index off hi; simp at hi
  | cons l rest ih =>
    intro i index off hi
    cases i with
    | zero => simp [chunkDropsAux]
    | succ j =>
      have hj : j < rest.length := by simpa using hi
      have := ih j (index + 1) (off + l) hj
      simp only [chunkDropsAux, List.getD_cons_succ, List.take_succ_cons, List.sum_cons]
      rw [this]
      omega

theorem chunkDropsAux_start_ge (rawPath installDir : String) (chunk : DropChunk) :
    ∀ (ls : List Nat) (index off : Nat) (d : DownloadDrop),
      d ∈ chunkDropsAux rawPath installDir chunk index off ls → off ≤ d.start := by
  intro ls
  induction ls with
  | nil => intro index off d h; cases h
  | cons l rest ih =>
    intro index off d h
    rcases List.mem_cons.mp h with h' | h'
    · subst h'; simp
    · have := ih (index + 1) (off + l) d h'
      omega

theorem chunkDropsAux_pairwise (rawPath installDir : String) (chunk : DropChunk) :
    ∀ (ls : List Nat) (index off : Nat), (∀ l ∈ ls, 0 < l) →
      ((chunkDropsAux rawPath installDir chunk index off ls).map
          (fun d => d.start)).Pairwise (· < ·) := by
  intro ls
  induction ls with
  | nil => intro index off _; simp [chunkDropsAux]
  | cons l rest ih =>
    intro index off hpos
    simp only [chunkDropsAux, List.map_cons, List.pairwise_cons]
    constructor
    · intro s hs
      rw [List.mem_map] at hs
      obtain ⟨d, hd, hds⟩ := hs
      have h1 : off + l ≤ d.start := chunkDropsAux_start_ge rawPath installDir chunk rest _ _ d hd
      have h2 : 0 < l := hpos l (List.mem_cons_self _ _)
      omega
    · exact ih (index + 1) (off + l) (fun x hx => hpos x (List.mem_cons_of_mem _ hx))

/-- C5 counterexample: the claim asserts strictly increasing start offsets for
every chunk, but a chunk containing a zero-length range (which the code and
spec both allow, see the zero-length-Drop boundary case) yields two equal
start offsets. -/
theorem c5_counterexample :
    ((chunkDrops "a.bin" "dir" ⟨0, [], ["c1", "c2"], [0, 5], "v"⟩).map
        (fun d => d.start)) = [0, 0] ∧
      ¬ (((chunkDrops "a.bin" "dir" ⟨0, [], ["c1", "c2"], [0, 5], "v"⟩).map
          (fun d => d.start)).Pairwise (· < ·)) := by
  constructor
  · rfl
  · intro h
    have h2 : (([0, 0] : List Nat)).Pairwise (· < ·) := h
    have h3 := (List.pairwise_cons.mp h2).1 0 (by simp)
    omega

/-- C5 (amended): for every chunk, the Drops derived from it have start
offsets equal to the prefix sums of the preceding range lengths (hence
contiguous and non-overlapping, beginning at 0), their lengths are exactly
the chunk's range lengths, the lengths sum to the chunk's total size, and the
starts are strictly increasing whenever every range length is positive. -/
theorem c5_drop_offsets (rawPath installDir : String) (chunk : DropChunk) :
    ((chunkDrops rawPath installDir chunk).map (fun d => d.length) = chunk.lengths) ∧
    (∀ i, i < (chunkDrops rawPath installDir chunk).length →
      ((chunkDrops rawPath installDir chunk).getD i default).start =
        (chunk.lengths.take i).sum) ∧
    sumLen (chunkDrops rawPath installDir chunk) = chunk.lengths.sum ∧
    ((∀ l ∈ chunk.lengths, 0 < l) →
      ((chunkDrops rawPath installDir chunk).map (fun d => d.start)).Pairwise (· < ·)) := by
  refine ⟨chunkDropsAux_map_length rawPath installDir chunk chunk.lengths 0 0, ?_, ?_, ?_⟩
  · intro i hi
    have hi' : i < chunk.lengths.length := by
      unfold chunkDrops at hi
      rwa [chunkDropsAux_length] at hi
    have := chunkDropsAux_getD_start rawPath installDir chunk chunk.lengths i 0 0 hi'
    simpa using this
  · unfold sumLen chunkDrops
    rw [chunkDropsAux_map_length rawPath installDir chunk chunk.lengths 0 0]
  · intro hpos
    exact chunkDropsAux_pairwise rawPath installDir chunk chunk.lengths 0 0 hpos

/-- Witness for C5 at a concrete chunk with positive range lengths. -/
theorem c5_drop_offsets_witness :
    (1 < (chunkDrops "a.bin" "dir" ⟨0, [], ["c1", "c2"], [10, 20], "v"⟩).length) ∧
    ((chunkDrops "a.bin" "dir" ⟨0, [], ["c1", "c2"], [10, 20], "v"⟩).getD 1 default).start =
      (([10, 20] : List Nat).take 1).sum ∧
    (∀ l ∈ ([10, 20] : List Nat), 0 < l) ∧
    ((chunkDrops "a.bin" "dir" ⟨0, [], ["c1", "c2"], [10, 20], "v"⟩).map
        (fun d => d.start)).Pairwise (· < ·) :=
  ⟨by decide,
    (c5_drop_offsets "a.bin" "dir" ⟨0, [], ["c1", "c2"], [10, 20], "v"⟩).2.1 1 (by decide),
    by decide,
    (c5_drop_offsets "a.bin" "dir" ⟨0, [], ["c1", "c2"], [10, 20], "v"⟩).2.2.2 (by decide)⟩

/-- C6: In `generate_buckets`, for every Drop below the threshold, the open
bucket is sealed (appended to the output) exactly when the seal condition
holds — non-empty open bucket, and running total plus Drop length reaching
the threshold or the Drop cap reached — after which the Drop is appended
whole to the (possibly fresh) open bucket, never split; and in the spec's
test scenario with the threshold lowered to 25 and one chunk with lengths
`[10, 20]`, the planner produces exactly the two claimed buckets. -/
theorem c6_seal_rule :
    (∀ (gameId version : String) (t maxF : Nat) (st : PlanState) (d : DownloadDrop),
      d.length < t →
        ((stepDrop gameId version t maxF st d).buckets =
            st.buckets ++
              (if sealCond t maxF (openEntry gameId version st) d
                then [(openEntry gameId version st).1] else []) ∧
          alistFind version (stepDrop gameId version t maxF st d).current =
            some
              (if sealCond t maxF (openEntry gameId version st) d
                then ((⟨gameId, version, [d]⟩ : DownloadBucket), d.length)
                else
                  ({ (openEntry gameId version st).1 with
                      drops := (openEntry gameId version st).1.drops ++ [d] },
                    (openEntry gameId version st).2 + d.length)))) ∧
    generateBucketsWith "g" "dir" 25 255
        [("a.bin", ⟨0, [], ["c1", "c2"], [10, 20], "v1"⟩)] =
      [⟨"g", "v1", [⟨0, "a.bin", "dir/a.bin", 0, 10, "c1", 0⟩]⟩,
       ⟨"g", "v1", [⟨1, "a.bin", "dir/a.bin", 10, 20, "c2", 0⟩]⟩] := by
  constructor
  · intro gameId version t maxF st d hd
    unfold stepDrop
    rw [if_neg (Nat.not_le_of_lt hd)]
    unfold stepSmall
    by_cases hs : sealCond t maxF (openEntry gameId version st) d
    · rw [if_pos hs, if_pos hs, if_pos hs]
      exact ⟨rfl, alistFind_alistInsert version _ st.current⟩
    · rw [if_neg hs, if_neg hs, if_neg hs]
      exact ⟨by simp, alistFind_alistInsert version _ st.current⟩
  · decide

/-- Witness for C6's general seal rule at the empty plan state and a Drop of
length 10 against threshold 25. -/
theorem c6_seal_rule_witness :
    ((⟨0, "a.bin", "dir/a.bin", 0, 10, "c1", 0⟩ : DownloadDrop).length < 25) ∧
    ((stepDrop "g" "v1" 25 255 ⟨[], []⟩ ⟨0, "a.bin", "dir/a.bin", 0, 10, "c1", 0⟩).buckets =
        ([] : List DownloadBucket) ++
          (if sealCond 25 255 (openEntry "g" "v1" ⟨[], []⟩)
              ⟨0, "a.bin", "dir/a.bin", 0, 10, "c1", 0⟩
            then [(openEntry "g" "v1" ⟨[], []⟩).1] else []) ∧
      alistFind "v1"
          (stepDrop "g" "v1" 25 255 ⟨[], []⟩ ⟨0, "a.bin", "dir/a.bin", 0, 10, "c1", 0⟩).current =
        some
          (if sealCond 25 255 (openEntry "g" "v1" ⟨[], []⟩)
              ⟨0, "a.bin", "dir/a.bin", 0, 10, "c1", 0⟩
            then ((⟨"g", "v1", [⟨0, "a.bin", "dir/a.bin", 0, 10, "c1", 0⟩]⟩ : DownloadBucket), 10)
            else
              ({ (openEntry "g" "v1" ⟨[], []⟩).1 with
                  drops :=
                    (openEntry "g" "v1" ⟨[], []⟩).1.drops ++
                      [⟨0, "a.bin", "dir/a.bin", 0, 10, "c1", 0⟩] },
                (openEntry "g" "v1" ⟨[], []⟩).2 + 10))) :=
  ⟨by decide,
    c6_seal_rule.1 "g" "v1" 25 255 ⟨[], []⟩ ⟨0, "a.bin", "dir/a.bin", 0, 10, "c1", 0⟩ (by decide)⟩

/-! ## Stream demultiplexer (`src/download_internals.rs`)

A destination file is a `List Nat` of bytes; writing at a position past the
end first pads with zero bytes (the observable effect of seek-past-EOF plus
write).  A `DropWriter` carries the byte sequence fed to its md5 hasher, its
seek position, and its file contents; the md5 digest of a writer is
identified with the byte sequence fed to the hasher, so that any digest
function applied to equal byte sequences agrees. -/

def MAX_PACKET_LENGTH : Nat := 4096 * 4

def BUMP_SIZE : Nat := 4096 * 16

def setByte : List Nat → Nat → Nat → List Nat
  | [], 0, b => [b]
  | [], p + 1, b => 0 :: setByte [] p b
  | _ :: xs, 0, b => b :: xs
  | x :: xs, p + 1, b => x :: setByte xs p b

def writeAt : List Nat → Nat → List Nat → List Nat
  | f, _, [] => f
  | f, p, b :: bs => writeAt (setByte f p b) (p + 1) bs

/-- Read back `len` bytes of a file starting at `pos` (missing positions read
as zero bytes, matching a sparse file). -/
def readBytes (f : List Nat) (pos len : Nat) : List Nat :=
  (List.range len).map (fun i => f.getD (pos + i) 0)

structure DropWriter where
  hashed : List Nat
  pos : Nat
  file : List Nat
deriving DecidableEq

instance : Inhabited DropWriter := ⟨⟨[], 0, []⟩⟩

/-- `DropWriter::write` / `write_all`: every byte goes through both the hash
accumulator and the destination file (`src/download_internals.rs`
lines 234-246). -/
def writerWrite (w : DropWriter) (data : List Nat) : DropWriter :=
  { hashed := w.hashed ++ data
    pos := w.pos + data.length
    file := writeAt w.file w.pos data }

/-- The seek preceding each Drop's copy (`src/download_internals.rs`
lines 274-276): only performed when the Drop's start offset is non-zero. -/
def seekStart (d : DownloadDrop) (w : DropWriter) : DropWriter :=
  if d.start ≠ 0 then { w with pos := d.start } else w

/-- The inner `loop` of `DropDownloadPipeline::copy`
(`src/download_internals.rs` lines 277-295), with an explicit fuel bound:
`none` means the loop has not terminated within `fuel` iterations.  A read
from the source returns `min` of the requested size and the bytes available,
the deterministic model of a blocking stream; `bump` is the dead `last_bump`
counter, tracked for fidelity. -/
def copyDropLoop : Nat → DropWriter → Nat → Nat → List Nat → Option (DropWriter × List Nat)
  | 0, _, _, _, _ => none
  | fuel + 1, w, remaining, bump, src =>
    let size0 := min MAX_PACKET_LENGTH remaining
    let chunk := src.take size0
    let size := chunk.length
    let remaining' := remaining - size
    let bump1 := bump + size
    let bump' := if BUMP_SIZE < bump1 then bump1 - BUMP_SIZE else bump1
    let w' := writerWrite w chunk
    let src' := src.drop size0
    if remaining' = 0 then some (w', src')
    else copyDropLoop fuel w' remaining' bump' src'

/-- The outer loop of `DropDownloadPipeline::copy`
(`src/download_internals.rs` lines 269-299): Drops paired with their writers,
processed in order against the shared source stream. -/
def copyDrops (fuel : Nat) : List (DownloadDrop × DropWriter) → List Nat →
    Option (List DropWriter × List Nat)
  | [], src => some ([], src)
  | (d, w) :: rest, src =>
    match copyDropLoop fuel (seekStart d w) d.length 0 src with
    | none => none
    | some (w', src') =>
      match copyDrops fuel rest src' with
      | none => none
      | some (ws, srcF) => some (w' :: ws, srcF)

/-- Fresh writers for a pipeline (`DropDownloadPipeline::new`,
`src/download_internals.rs` lines 261-267): one writer per Drop, opened on
the Drop's destination file without truncation (`fs` gives each path's
pre-existing contents), with a fresh hasher. -/
def initWriters (fs : String → List Nat) (drops : List DownloadDrop) : List DropWriter :=
  drops.map (fun d => ⟨[], 0, fs d.path⟩)

/-- `DropDownloadPipeline::finish` (`src/download_internals.rs`
lines 306-309): one digest per writer, in Drop order; the digest is modelled
as the byte sequence the hasher consumed. -/
def pipelineFinish (ws : List DropWriter) : List (List Nat) :=
  ws.map (fun w => w.hashed)

/-! ## Byte-level lemmas -/

theorem setByte_length_gt : ∀ (f : List Nat) (p b : Nat), p < (setByte f p b).length := by
  intro f
  induction f with
  | nil =>
    intro p
    induction p with
    | zero => intro b; simp [setByte]
    | succ q ih =>
      intro b
      have := ih b
      simp only [setByte, List.length_cons]
      omega
  | cons x xs ih =>
    intro p
    cases p with
    | zero => intro b; simp [setByte]
    | succ q =>
      intro b
      have := ih q b
      simp only [setByte, List.length_cons]
      omega

theorem setByte_length_ge : ∀ (f : List Nat) (p b : Nat), f.length ≤ (setByte f p b).length := by
  intro f
  induction f with
  | nil => intro p b; simp
  | cons x xs ih =>
    intro p b
    cases p with
    | zero => simp [setByte]
    | succ q =>
      have := ih q b
      simp only [setByte, List.length_cons]
      omega

theorem getD_setByte_self : ∀ (f : List Nat) (p b : Nat), (setByte f p b).getD p 0 = b := by
  intro f
  induction f with
  | nil =>
    intro p
    induction p with
    | zero => intro b; simp [setByte]
    | succ q ih => intro b; simpa [setByte] using ih b
  | cons x xs ih =>
    intro p
    cases p with
    | zero => intro b; simp [setByte]
    | succ q => intro b; simpa [setByte] using ih q b

theorem getD_setByte_lt : ∀ (f : List Nat) (p b q : Nat), q < p → q < f.length →
    (setByte f p b).getD q 0 = f.getD q 0 := by
  intro f
  induction f with
  | nil => intro p b q _ hq; simp at hq
  | cons x xs ih =>
    intro p b q hqp hq
    cases p with
    | zero => omega
    | succ p' =>
      cases q with
      | zero => simp [setByte]
      | succ q' =>
        have hq' : q' < xs.length := by simpa using hq
        simpa [setByte] using ih p' b q' (by omega) hq'

theorem writeAt_length_ge : ∀ (data f : List Nat) (p : Nat),
    f.length ≤ (writeAt f p data).length := by
  intro data
  induction data with
  | nil => intro f p; simp [writeAt]
  | cons b bs ih =>
    intro f p
    calc f.length ≤ (setByte f p b).length := setByte_length_ge f p b
      _ ≤ (writeAt (setByte f p b) (p + 1) bs).length := ih _ _

theorem getD_writeAt_lt : ∀ (data f : List Nat) (p q : Nat), q < p → q < f.length →
    (writeAt f p data).getD q 0 = f.getD q 0 := by
  intro data
  induction data with
  | nil => intro f p q _ _; rfl
  | cons b bs ih =>
    intro f p q hqp hq
    have h1 : q < (setByte f p b).length := Nat.lt_of_lt_of_le hq (setByte_length_ge f p b)
    calc (writeAt (setByte f p b) (p + 1) bs).getD q 0
        = (setByte f p b).getD q 0 := ih _ _ _ (by omega) h1
      _ = f.getD q 0 := getD_setByte_lt f p b q hqp hq

theorem readBytes_zero (f : List Nat) (pos : Nat) : readBytes f pos 0 = [] := rfl

theorem readBytes_succ (f : List Nat) (pos len : Nat) :
    readBytes f pos (len + 1) = f.getD pos 0 :: readBytes f (pos + 1) len := by
  unfold readBytes
  rw [List.range_succ_eq_map]
  simp [Function.comp, Nat.add_assoc, Nat.add_comm 1]

theorem readBytes_writeAt : ∀ (data f : List Nat) (pos : Nat),
    readBytes (writeAt f pos data) pos data.length = data := by
  intro data
  induction data with
  | nil => intro f pos; rfl
  | cons b bs ih =>
    intro f pos
    show readBytes (writeAt (setByte f pos b) (pos + 1) bs) pos (bs.length + 1) = b :: bs
    rw [readBytes_succ]
    have hhead : (writeAt (setByte f pos b) (pos + 1) bs).getD pos 0 = b := by
      rw [getD_writeAt_lt bs (setByte f pos b) (pos + 1) pos (by omega)
        (setByte_length_gt f pos b)]
      exact getD_setByte_self f pos b
    rw [hhead, ih]

theorem writeAt_append : ∀ (a b f : List Nat) (p : Nat),
    writeAt f p (a ++ b) = writeAt (writeAt f p a) (p + a.length) b := by
  intro a
  induction a with
  | nil => intro b f p; simp [writeAt]
  | cons x xs ih =>
    intro b f p
    show writeAt (setByte f p x) (p + 1) (xs ++ b) = _
    rw [ih b (setByte f p x) (p + 1)]
    have : p + 1 + xs.length = p + (xs.length + 1) := by omega
    rw [this]
    rfl

theorem writerWrite_nil (w : DropWriter) : writerWrite w [] = w := by
  simp [writerWrite, writeAt]

theorem writerWrite_append (w : DropWriter) (a b : List Nat) :
    writerWrite w (a ++ b) = writerWrite (writerWrite w a) b := by
  unfold writerWrite
  simp only [List.length_append]
  refine DropWriter.mk.injEq .. ▸ ?_
  exact ⟨by simp, by omega, writeAt_append a b w.file w.pos⟩

/-- When the source holds at least `n` bytes and the fuel exceeds `n`, the
inner copy loop terminates, writing exactly the first `n` source bytes
through the writer and leaving exactly the rest of the source. -/
theorem copyDropLoop_complete : ∀ (fuel : Nat) (w : DropWriter) (n bump : Nat)
    (src : List Nat), n ≤ src.length → n < fuel →
    copyDropLoop fuel w n bump src = some (writerWrite w (src.take n), src.drop n) := by
  intro fuel
  induction fuel with
  | zero => intro w n bump src hn hf; omega
  | succ fuel ih =>
    intro w n bump src hn hf
    by_cases hsmall : n ≤ MAX_PACKET_LENGTH
    · have hmin : min MAX_PACKET_LENGTH n = n := Nat.min_eq_right hsmall
      have hlen : (src.take n).length = n := by
        rw [List.length_take]
        omega
      unfold copyDropLoop
      simp only [hmin, hlen, Nat.sub_self, if_pos]
    · have hnle : MAX_PACKET_LENGTH < n := Nat.lt_of_not_le hsmall
      have hmin : min MAX_PACKET_LENGTH n = MAX_PACKET_LENGTH :=
        Nat.min_eq_left (by omega)
      have hlen : (src.take MAX_PACKET_LENGTH).length = MAX_PACKET_LENGTH := by
        rw [List.length_take]
        omega
      have hMPL : 0 < MAX_PACKET_LENGTH := by decide
      unfold copyDropLoop
      simp only [hmin, hlen]
      rw [if_neg (by omega)]
      have hn' : n - MAX_PACKET_LENGTH ≤ (src.drop MAX_PACKET_LENGTH).length := by
        rw [List.length_drop]
        omega
      have hf' : n - MAX_PACKET_LENGTH < fuel := by omega
      rw [ih _ _ _ _ hn' hf']
      have htake : src.take MAX_PACKET_LENGTH ++
          (src.drop MAX_PACKET_LENGTH).take (n - MAX_PACKET_LENGTH) = src.take n := by
        have hsum : MAX_PACKET_LENGTH + (n - MAX_PACKET_LENGTH) = n := by omega
        rw [← List.take_add, hsum]
      have hdrop : (src.drop MAX_PACKET_LENGTH).drop (n - MAX_PACKET_LENGTH) = src.drop n := by
        rw [List.drop_drop]
        have heq : MAX_PACKET_LENGTH + (n - MAX_PACKET_LENGTH) = n := by omega
        rw [heq]
      rw [← writerWrite_append, htake, hdrop]

/-- C9: the inner copy loop never terminates once the source stream is
exhausted while a Drop still has remaining bytes — each read returns 0 bytes,
the loop state does not progress, and no fuel bound suffices (the code loops
forever instead of reporting a transport error). -/
theorem c9_copy_hangs_on_eof (w : DropWriter) (remaining bump : Nat)
    (h : 0 < remaining) :
    ∀ fuel, copyDropLoop fuel w remaining bump [] = none := by
  intro fuel
  induction fuel generalizing w bump with
  | zero => rfl
  | succ fuel ih =>
    unfold copyDropLoop
    simp only [List.take_nil, List.length_nil, Nat.sub_zero, List.drop_nil]
    rw [if_neg (by omega)]
    exact ih _ _

/-- Witness for C9 with one remaining byte and an exhausted stream. -/
theorem c9_copy_hangs_on_eof_witness :
    0 < 1 ∧ copyDropLoop 5 ⟨[], 0, []⟩ 1 0 [] = none :=
  ⟨by decide, c9_copy_hangs_on_eof ⟨[], 0, []⟩ 1 0 (by decide) 5⟩

theorem seekStart_hashed (d : DownloadDrop) (w : DropWriter) :
    (seekStart d w).hashed = w.hashed := by
  unfold seekStart
  split <;> rfl

theorem seekStart_file (d : DownloadDrop) (w : DropWriter) :
    (seekStart d w).file = w.file := by
  unfold seekStart
  split <;> rfl

theorem seekStart_init (d : DownloadDrop) (f : List Nat) :
    seekStart d (⟨[], 0, f⟩ : DropWriter) = ⟨[], d.start, f⟩ := by
  unfold seekStart
  by_cases h : d.start ≠ 0
  · rw [if_pos h]
  · rw [if_neg h]
    push_neg at h
    rw [h]

theorem copyDrops_cons (fuel : Nat) (d : DownloadDrop) (w : DropWriter)
    (rest : List (DownloadDrop × DropWriter)) (src : List Nat) :
    copyDrops fuel ((d, w) :: rest) src =
      match copyDropLoop fuel (seekStart d w) d.length 0 src with
      | none => none
      | some (w', src') =>
        match copyDrops fuel rest src' with
        | none => none
        | some (ws, srcF) => some (w' :: ws, srcF) := rfl

/-- C8: a Drop of length 0 completes without consuming any byte of the shared
stream — the remaining Drops read from exactly the same stream position — and
its writer's hash accumulator and file are untouched, so `finish` returns for
it the digest of an empty input when its writer is fresh. -/
theorem c8_zero_length_drop (d : DownloadDrop) (w : DropWriter)
    (rest : List (DownloadDrop × DropWriter)) (src : List Nat) (fuel : Nat)
    (hd : d.length = 0) (hf : 1 ≤ fuel) :
    copyDrops fuel ((d, w) :: rest) src =
        (copyDrops fuel rest src).map (fun p => (seekStart d w :: p.1, p.2)) ∧
      (seekStart d w).hashed = w.hashed ∧ (seekStart d w).file = w.file := by
  have h0 : copyDropLoop fuel (seekStart d w) d.length 0 src =
      some (seekStart d w, src) := by
    rw [hd, copyDropLoop_complete fuel _ 0 0 src (Nat.zero_le _) (by omega)]
    simp [writerWrite_nil]
  refine ⟨?_, seekStart_hashed d w, seekStart_file d w⟩
  rw [copyDrops_cons, h0]
  dsimp only
  cases hres : copyDrops fuel rest src with
  | none => rfl
  | some p =>
    obtain ⟨ws, srcF⟩ := p
    rfl

/-- Witness for C8 with a zero-length Drop ahead of an empty tail. -/
theorem c8_zero_length_drop_witness :
    ((⟨0, "f", "p", 3, 0, "", 0⟩ : DownloadDrop).length = 0) ∧ (1 ≤ 2) ∧
    (copyDrops 2 [((⟨0, "f", "p", 3, 0, "", 0⟩ : DownloadDrop), (⟨[], 0, [9, 9]⟩ : DropWriter))] [1, 2] =
        (copyDrops 2 [] [1, 2]).map
          (fun p => (seekStart ⟨0, "f", "p", 3, 0, "", 0⟩ ⟨[], 0, [9, 9]⟩ :: p.1, p.2)) ∧
      (seekStart (⟨0, "f", "p", 3, 0, "", 0⟩ : DownloadDrop) (⟨[], 0, [9, 9]⟩ : DropWriter)).hashed =
        (⟨[], 0, [9, 9]⟩ : DropWriter).hashed ∧
      (seekStart (⟨0, "f", "p", 3, 0, "", 0⟩ : DownloadDrop) (⟨[], 0, [9, 9]⟩ : DropWriter)).file =
        (⟨[], 0, [9, 9]⟩ : DropWriter).file) :=
  ⟨rfl, by omega,
    c8_zero_length_drop ⟨0, "f", "p", 3, 0, "", 0⟩ ⟨[], 0, [9, 9]⟩ [] [1, 2] 2 rfl (by omega)⟩

theorem copyDrops_roundtrip_aux : ∀ (ranges : List (List Nat))
    (drops : List DownloadDrop) (fs : String → List Nat) (fuel : Nat),
    drops.map (fun d => d.length) = ranges.map (fun r => r.length) →
    (∀ r ∈ ranges, r.length < fuel) →
    ∃ ws, copyDrops fuel (drops.zip (initWriters fs drops)) ranges.flatten =
        some (ws, []) ∧
      pipelineFinish ws = ranges ∧
      (∀ i, i < drops.length →
        readBytes ((ws.getD i default).file) ((drops.getD i default).start)
          ((drops.getD i default).length) = ranges.getD i []) := by
  intro ranges
  induction ranges with
  | nil =>
    intro drops fs fuel hlen _
    have hd : drops = [] := by
      cases drops with
      | nil => rfl
      | cons d ds => simp at hlen
    subst hd
    refine ⟨[], rfl, rfl, ?_⟩
    intro i hi
    simp at hi
  | cons r rs ih =>
    intro drops fs fuel hlen hfuel
    cases drops with
    | nil => simp at hlen
    | cons d ds =>
      simp only [List.map_cons, List.cons.injEq] at hlen
      obtain ⟨hdr, hlen'⟩ := hlen
      obtain ⟨ws', hcopy', hfin', hread'⟩ :=
        ih ds fs fuel hlen' (fun x hx => hfuel x (List.mem_cons_of_mem _ hx))
      have hrfuel : r.length < fuel := hfuel r (List.mem_cons_self _ _)
      have hloop : copyDropLoop fuel (seekStart d ⟨[], 0, fs d.path⟩) d.length 0
          ((r :: rs).flatten) =
          some (⟨r, d.start + r.length, writeAt (fs d.path) d.start r⟩, rs.flatten) := by
        rw [seekStart_init, hdr]
        have hfl : (r :: rs).flatten = r ++ rs.flatten := by simp
        rw [hfl]
        rw [copyDropLoop_complete fuel _ r.length 0 (r ++ rs.flatten) (by simp) hrfuel]
        rw [List.take_left, List.drop_left]
        rfl
      refine ⟨⟨r, d.start + r.length, writeAt (fs d.path) d.start r⟩ :: ws', ?_, ?_, ?_⟩
      · have hz : (d :: ds).zip (initWriters fs (d :: ds)) =
            (d, (⟨[], 0, fs d.path⟩ : DropWriter)) :: ds.zip (initWriters fs ds) := by
          simp [initWriters]
        rw [hz, copyDrops_cons, hloop]
        dsimp only
        rw [hcopy']
      · have hc : pipelineFinish
            (⟨r, d.start + r.length, writeAt (fs d.path) d.start r⟩ :: ws') =
            r :: pipelineFinish ws' := rfl
        rw [hc, hfin']
      · intro i hi
        cases i with
        | zero =>
          simp only [List.getD_cons_zero]
          show readBytes (writeAt (fs d.path) d.start r) d.start d.length = r
          rw [hdr]
          exact readBytes_writeAt r (fs d.path) d.start
        | succ j =>
          simp only [List.getD_cons_succ]
          exact hread' j (by simpa using hi)

/-- C4: round-trip — for Drops that exactly describe a list of byte ranges
(matching lengths; each Drop's start is its intended file offset), running
the pipeline's copy over the stream formed by concatenating those ranges in
Drop order consumes the stream completely and strictly sequentially, writes
each range's original bytes at its Drop's start offset in that Drop's
destination file, and `finish` returns one digest per Drop, in Drop order,
whose hashed input is exactly that range's bytes (so any digest function of
it equals the independently computed digest of the range). -/
theorem c4_roundtrip (ranges : List (List Nat)) (drops : List DownloadDrop)
    (fs : String → List Nat) (fuel : Nat)
    (hlen : drops.map (fun d => d.length) = ranges.map (fun r => r.length))
    (hfuel : ranges.flatten.length < fuel) :
    ∃ ws, copyDrops fuel (drops.zip (initWriters fs drops)) ranges.flatten =
        some (ws, []) ∧
      pipelineFinish ws = ranges ∧
      (∀ i, i < drops.length →
        readBytes ((ws.getD i default).file) ((drops.getD i default).start)
          ((drops.getD i default).length) = ranges.getD i []) := by
  apply copyDrops_roundtrip_aux ranges drops fs fuel hlen
  intro r hr
  have h1 : r.length ≤ ranges.flatten.length := by
    rw [List.length_flatten]
    exact List.single_le_sum (fun x _ => Nat.zero_le x) _
      (List.mem_map_of_mem _ hr)
  omega

/-- Witness for C4 with two ranges and matching Drops. -/
theorem c4_roundtrip_witness :
    (([⟨0, "f", "p", 0, 2, "", 0⟩, ⟨1, "f", "q", 5, 1, "", 0⟩] : List DownloadDrop).map
        (fun d => d.length) =
      ([[1, 2], [3]] : List (List Nat)).map (fun r => r.length)) ∧
    (([[1, 2], [3]] : List (List Nat)).flatten.length < 4) ∧
    (∃ ws, copyDrops 4
          (([⟨0, "f", "p", 0, 2, "", 0⟩, ⟨1, "f", "q", 5, 1, "", 0⟩] : List DownloadDrop).zip
            (initWriters (fun _ => []) [⟨0, "f", "p", 0, 2, "", 0⟩, ⟨1, "f", "q", 5, 1, "", 0⟩]))
          ([[1, 2], [3]] : List (List Nat)).flatten = some (ws, []) ∧
      pipelineFinish ws = [[1, 2], [3]] ∧
      (∀ i, i < ([⟨0, "f", "p", 0, 2, "", 0⟩, ⟨1, "f", "q", 5, 1, "", 0⟩] : List DownloadDrop).length →
        readBytes ((ws.getD i default).file)
            ((([⟨0, "f", "p", 0, 2, "", 0⟩, ⟨1, "f", "q", 5, 1, "", 0⟩] : List DownloadDrop).getD i default).start)
            ((([⟨0, "f", "p", 0, 2, "", 0⟩, ⟨1, "f", "q", 5, 1, "", 0⟩] : List DownloadDrop).getD i default).length) =
          ([[1, 2], [3]] : List (List Nat)).getD i [])) :=
  ⟨by decide, by decide,
    c4_roundtrip [[1, 2], [3]] [⟨0, "f", "p", 0, 2, "", 0⟩, ⟨1, "f", "q", 5, 1, "", 0⟩]
      (fun _ => []) 4 (by decide) (by decide)⟩

/-! ## `download_game_bucket` (`src/download.rs` lines 160-199)

The HTTP response is modelled by its status code, its `Content-Lengths`
header string and its body byte stream.  The outer `Option` distinguishes a
diverging copy loop (`none`, see C9) from a returned `Result`. -/

/-- Rust's `str::split(",")`: splits on every comma, keeping empty pieces
(so the empty string yields one empty piece). -/
def splitCommaAux : List Char → List Char → List (List Char)
  | [], acc => [acc.reverse]
  | c :: cs, acc =>
    if c = ',' then acc.reverse :: splitCommaAux cs []
    else splitCommaAux cs (c :: acc)

def splitComma (s : String) : List (List Char) := splitCommaAux s.data []

/-- Rust's `str::parse::<usize>`: an optional leading `+`, then one or more
ASCII digits, rejecting the empty string and values overflowing 64-bit
`usize`. -/
def parseUsize (cs : List Char) : Option Nat :=
  let t := match cs with
    | '+' :: rest => rest
    | _ => cs
  if t = [] then none
  else if t.all (fun c => c.isDigit) then
    let n := t.foldl (fun n c => n * 10 + (c.toNat - 48)) 0
    if n < 2 ^ 64 then some n else none
  else none

/-- The `Content-Lengths` validation loop (`src/download.rs` lines 171-179):
iterate over the header's comma-separated entries with their positions,
parse each with `unwrap_or(0)`, error when the position has no Drop, error
when the parsed value differs from the Drop's length.  Error payloads stand
in for the formatted Rust messages. -/
def validateLengths (drops : List DownloadDrop) : Nat → List (List Char) → Except String Unit
  | _, [] => Except.ok ()
  | i, raw :: rest =>
    let leng := (parseUsize raw).getD 0
    match drops[i]? with
    | none => Except.error "invalid number of Content-Lengths recieved"
    | some d =>
      if d.length ≠ leng then Except.error "Content-Lengths value mismatch"
      else validateLengths drops (i + 1) rest

/-- The digest-comparison loop (`src/download.rs` lines 188-195): hex-encoded
digests are compared against manifest checksums; a mismatch only appends a
log line (the early returns in the source are commented out). -/
def checkDigests (hexDigest : List Nat → String) :
    List DownloadDrop → List (List Nat) → List String
  | [], _ => []
  | d :: ds, hs =>
    (if hexDigest (hs.headD []) ≠ d.checksum
      then ["context didn't match... doing nothing because we will validate later."]
      else []) ++ checkDigests hexDigest ds hs.tail

/-- `download_game_bucket`: status check, header validation, pipeline copy,
finish, digest logging.  `fs` gives each destination path's pre-existing
contents and `hexDigest` is the hex-encoded md5 (kept abstract).  The
returned payload exposes the pipeline's writers and the mismatch log so the
claims about them are statable; the Rust function discards both and returns
`Ok(())`. -/
def download_game_bucket (bucket : DownloadBucket) (status : Nat)
    (contentLengths : String) (stream : List Nat) (fs : String → List Nat)
    (hexDigest : List Nat → String) (fuel : Nat) :
    Option (Except String (List DropWriter × List String)) :=
  if status ≠ 200 then some (Except.error "failed to download chunk") else
  match validateLengths bucket.drops 0 (splitComma contentLengths) with
  | Except.error e => some (Except.error e)
  | Except.ok () =>
    match copyDrops fuel (bucket.drops.zip (initWriters fs bucket.drops)) stream with
    | none => none
    | some (ws, _) =>
      some (Except.ok (ws, checkDigests hexDigest bucket.drops (pipelineFinish ws)))

/-! ## The coordinator's worker body (`src/download.rs` lines 133-153) -/

inductive LoopOutcome where
  | completed
  | panicked
  | exhausted
deriving DecidableEq

/-- The `for _ in 0..RETRY_COUNT` loop of the spawned worker: on `Ok` the
worker pushes every Drop's manifest checksum to the completion log and
returns; on `Err` it panics.  The result carries the outcome, the number of
attempts made, and the log entries pushed; `none` models an attempt whose
copy loop diverges. -/
def workerLoop (bucket : DownloadBucket)
    (attempt : Option (Except String (List DropWriter × List String))) :
    Nat → Nat → Option (LoopOutcome × Nat × List String)
  | 0, made => some (LoopOutcome.exhausted, made, [])
  | _ + 1, made =>
    match attempt with
    | none => none
    | some (Except.ok _) =>
        some (LoopOutcome.completed, made + 1, bucket.drops.map (fun d => d.checksum))
    | some (Except.error _) => some (LoopOutcome.panicked, made + 1, [])

/-- One bucket's worker, driving `download_game_bucket` through the retry
loop (deterministic environment: every attempt sees the same response). -/
def bucketWorker (bucket : DownloadBucket) (status : Nat) (contentLengths : String)
    (stream : List Nat) (fs : String → List Nat) (hexDigest : List Nat → String)
    (fuel : Nat) : Option (LoopOutcome × Nat × List String) :=
  workerLoop bucket
    (download_game_bucket bucket status contentLengths stream fs hexDigest fuel)
    RETRY_COUNT 0

theorem validateLengths_ok_iff (drops : List DownloadDrop) :
    ∀ (entries : List (List Char)) (i : Nat),
      validateLengths drops i entries = Except.ok () ↔
        ∀ j, j < entries.length →
          i + j < drops.length ∧
            (drops.getD (i + j) default).length = (parseUsize (entries.getD j [])).getD 0 := by
  intro entries
  induction entries with
  | nil =>
    intro i
    constructor
    · intro _ j hj
      simp at hj
    · intro _
      rfl
  | cons raw rest ih =>
    intro i
    rw [validateLengths]
    cases hget : drops[i]? with
    | none =>
      have hlen : drops.length ≤ i := List.getElem?_eq_none_iff.mp hget
      constructor
      · intro h
        simp at h
      · intro h
        exfalso
        have h0 := (h 0 (by simp)).1
        omega
    | some d =>
      dsimp only
      have hi : i < drops.length := (List.getElem?_eq_some.mp hget).1
      have hd : drops.getD i default = d := by
        rw [List.getD_eq_getElem?_getD, hget]
        rfl
      by_cases hv : d.length ≠ (parseUsize raw).getD 0
      · rw [if_pos hv]
        constructor
        · intro h
          simp at h
        · intro h
          exfalso
          have h0 := (h 0 (by simp)).2
          rw [Nat.add_zero, hd] at h0
          simp at h0
          exact hv h0
      · rw [if_neg hv]
        push_neg at hv
        rw [ih (i + 1)]
        constructor
        · intro h j hj
          cases j with
          | zero =>
            refine ⟨by omega, ?_⟩
            rw [Nat.add_zero, hd]
            simpa using hv
          | succ k =>
            have hk : k < rest.length := by simpa using hj
            have := h k hk
            have harith : i + 1 + k = i + (k + 1) := by omega
            rw [harith] at this
            simpa using this
        · intro h j hj
          have hj' : j + 1 < (raw :: rest).length := by simpa using hj
          have := h (j + 1) hj'
          have harith : i + (j + 1) = i + 1 + j := by omega
          rw [harith] at this
          simpa using this

/-- C2 counterexample: the claim asserts that a `Content-Lengths` header
with a different entry count than the bucket's Drops always fails the
attempt, but a header listing FEWER entries than Drops (all matching) passes
validation, and `download_game_bucket` proceeds to stream and succeed. -/
theorem c2_counterexample :
    validateLengths
        [⟨0, "a", "p", 0, 10, "c1", 0⟩, ⟨1, "a", "p", 10, 20, "c2", 0⟩] 0
        (splitComma "10") = Except.ok () ∧
      (∃ r, download_game_bucket
          ⟨"g", "v", [⟨0, "a", "p", 0, 10, "c1", 0⟩, ⟨1, "a", "p", 10, 20, "c2", 0⟩]⟩
          200 "10" (List.replicate 30 7) (fun _ => []) (fun _ => "x") 31 =
        some (Except.ok r)) :=
  ⟨rfl, ⟨_, rfl⟩⟩

/-- C2 (amended): after a 200 response the comma-separated `Content-Lengths`
entries are validated positionally against the bucket's Drops, before any
byte is streamed: an entry with no corresponding Drop (more entries than
Drops) or an entry whose parsed value differs from its Drop's length fails
the attempt with a protocol error; validation passes exactly when there are
at most as many entries as Drops and every entry matches its Drop — a header
with fewer entries than Drops, all matching, is NOT rejected. -/
theorem c2_header_validation :
    (∀ (drops : List DownloadDrop) (entries : List (List Char)),
      validateLengths drops 0 entries = Except.ok () ↔
        entries.length ≤ drops.length ∧
          ∀ j, j < entries.length →
            (drops.getD j default).length = (parseUsize (entries.getD j [])).getD 0) ∧
    (∀ (bucket : DownloadBucket) (header : String) (stream : List Nat)
        (fs : String → List Nat) (hexDigest : List Nat → String) (fuel : Nat)
        (e : String),
      validateLengths bucket.drops 0 (splitComma header) = Except.error e →
        download_game_bucket bucket 200 header stream fs hexDigest fuel =
          some (Except.error e)) := by
  constructor
  · intro drops entries
    rw [validateLengths_ok_iff drops entries 0]
    constructor
    · intro h
      constructor
      · cases hE : entries.length with
        | zero => omega
        | succ m =>
          have := (h m (by omega)).1
          omega
      · intro j hj
        have := (h j hj).2
        simpa using this
    · intro h j hj
      refine ⟨by omega, ?_⟩
      have := h.2 j hj
      simpa using this
  · intro bucket header stream fs hexDigest fuel e hval
    unfold download_game_bucket
    rw [if_neg (by omega), hval]

/-- Witness for C2's error-propagation conjunct at the spec's `"10,30"`
versus `[10, 20]` scenario. -/
theorem c2_header_validation_witness :
    (validateLengths
        (⟨"g", "v", [⟨0, "a", "p", 0, 10, "c1", 0⟩, ⟨1, "a", "p", 10, 20, "c2", 0⟩]⟩ :
          DownloadBucket).drops 0 (splitComma "10,30") =
      Except.error "Content-Lengths value mismatch") ∧
    download_game_bucket
        ⟨"g", "v", [⟨0, "a", "p", 0, 10, "c1", 0⟩, ⟨1, "a", "p", 10, 20, "c2", 0⟩]⟩
        200 "10,30" [1, 2, 3] (fun _ => []) (fun _ => "x") 9 =
      some (Except.error "Content-Lengths value mismatch") :=
  ⟨rfl,
    c2_header_validation.2
      ⟨"g", "v", [⟨0, "a", "p", 0, 10, "c1", 0⟩, ⟨1, "a", "p", 10, 20, "c2", 0⟩]⟩
      "10,30" [1, 2, 3] (fun _ => []) (fun _ => "x") 9
      "Content-Lengths value mismatch" rfl⟩

theorem getD_tail_lists (hs : List (List Nat)) (j : Nat) :
    hs.tail.getD j [] = hs.getD (j + 1) [] := by
  cases hs <;> rfl

theorem getD_zero_headD (hs : List (List Nat)) : hs.getD 0 [] = hs.headD [] := by
  cases hs <;> rfl

theorem checkDigests_ne_nil (hexDigest : List Nat → String) :
    ∀ (ds : List DownloadDrop) (hs : List (List Nat)) (i : Nat), i < ds.length →
      hexDigest (hs.getD i []) ≠ (ds.getD i default).checksum →
      checkDigests hexDigest ds hs ≠ [] := by
  intro ds
  induction ds with
  | nil =>
    intro hs i hi
    simp at hi
  | cons d ds ih =>
    intro hs i hi hne
    cases i with
    | zero =>
      unfold checkDigests
      rw [getD_zero_headD] at hne
      rw [if_pos (by simpa using hne)]
      simp
    | succ j =>
      unfold checkDigests
      intro hcontra
      have h2 : checkDigests hexDigest ds hs.tail ≠ [] := by
        apply ih hs.tail j (by simpa using hi)
        rw [getD_tail_lists]
        simpa using hne
      rcases List.append_eq_nil.mp hcontra with ⟨_, h4⟩
      exact h2 h4

/-- C7: when the status is 200, the header validates and the stream copy
terminates, `download_game_bucket` returns success even though some computed
digest's hex encoding differs from the Drop's manifest checksum — the
mismatch only contributes a log line (which is non-empty below), never an
error, and hence never a retry. -/
theorem c7_digest_mismatch_soft (bucket : DownloadBucket) (header : String)
    (stream : List Nat) (fs : String → List Nat) (hexDigest : List Nat → String)
    (fuel : Nat) (ws : List DropWriter) (rest : List Nat)
    (hval : validateLengths bucket.drops 0 (splitComma header) = Except.ok ())
    (hcopy : copyDrops fuel (bucket.drops.zip (initWriters fs bucket.drops)) stream =
      some (ws, rest))
    (hmis : ∃ i, i < bucket.drops.length ∧
      hexDigest ((pipelineFinish ws).getD i []) ≠ (bucket.drops.getD i default).checksum) :
    download_game_bucket bucket 200 header stream fs hexDigest fuel =
        some (Except.ok (ws, checkDigests hexDigest bucket.drops (pipelineFinish ws))) ∧
      checkDigests hexDigest bucket.drops (pipelineFinish ws) ≠ [] := by
  constructor
  · unfold download_game_bucket
    rw [if_neg (by omega), hval]
    dsimp only
    rw [hcopy]
  · obtain ⟨i, hi, hne⟩ := hmis
    exact checkDigests_ne_nil hexDigest bucket.drops (pipelineFinish ws) i hi hne

/-- Witness for C7: a one-Drop bucket whose computed digest hex-encodes to a
string different from the manifest checksum, still succeeding. -/
theorem c7_digest_mismatch_soft_witness :
    (validateLengths (⟨"g", "v", [⟨0, "a", "p", 0, 1, "aa", 0⟩]⟩ : DownloadBucket).drops 0
        (splitComma "1") = Except.ok ()) ∧
    (copyDrops 3
        ((⟨"g", "v", [⟨0, "a", "p", 0, 1, "aa", 0⟩]⟩ : DownloadBucket).drops.zip
          (initWriters (fun _ => [])
            (⟨"g", "v", [⟨0, "a", "p", 0, 1, "aa", 0⟩]⟩ : DownloadBucket).drops)) [7] =
      some ([⟨[7], 1, [7]⟩], [])) ∧
    (∃ i, i < (⟨"g", "v", [⟨0, "a", "p", 0, 1, "aa", 0⟩]⟩ : DownloadBucket).drops.length ∧
      (fun _ => "zz") ((pipelineFinish [(⟨[7], 1, [7]⟩ : DropWriter)]).getD i []) ≠
        ((⟨"g", "v", [⟨0, "a", "p", 0, 1, "aa", 0⟩]⟩ : DownloadBucket).drops.getD i default).checksum) ∧
    (download_game_bucket ⟨"g", "v", [⟨0, "a", "p", 0, 1, "aa", 0⟩]⟩ 200 "1" [7]
        (fun _ => []) (fun _ => "zz") 3 =
      some (Except.ok ([⟨[7], 1, [7]⟩],
        checkDigests (fun _ => "zz") (⟨"g", "v", [⟨0, "a", "p", 0, 1, "aa", 0⟩]⟩ : DownloadBucket).drops
          (pipelineFinish [(⟨[7], 1, [7]⟩ : DropWriter)])))) :=
  ⟨rfl, rfl, ⟨0, by decide, by decide⟩,
    (c7_digest_mismatch_soft ⟨"g", "v", [⟨0, "a", "p", 0, 1, "aa", 0⟩]⟩ "1" [7]
      (fun _ => []) (fun _ => "zz") 3 [⟨[7], 1, [7]⟩] [] rfl rfl
      ⟨0, by decide, by decide⟩).1⟩

theorem workerLoop_none (bucket : DownloadBucket) (made : Nat) :
    workerLoop bucket none RETRY_COUNT made = none := rfl

theorem workerLoop_ok (bucket : DownloadBucket)
    (v : List DropWriter × List String) (made : Nat) :
    workerLoop bucket (some (Except.ok v)) RETRY_COUNT made =
      some (LoopOutcome.completed, made + 1, bucket.drops.map (fun d => d.checksum)) := rfl

theorem workerLoop_error (bucket : DownloadBucket) (e : String) (made : Nat) :
    workerLoop bucket (some (Except.error e)) RETRY_COUNT made =
      some (LoopOutcome.panicked, made + 1, []) := rfl

/-- C3: the retry loop is written for `RETRY_COUNT = 3` iterations, yet the
worker never makes a second attempt for any bucket: an attempt returning an
error escalates immediately to a fatal panic with exactly one attempt made,
and every terminating execution makes at most one attempt. -/
theorem c3_no_retry :
    RETRY_COUNT = 3 ∧
    (∀ (bucket : DownloadBucket) (status : Nat) (header : String) (stream : List Nat)
        (fs : String → List Nat) (hexDigest : List Nat → String) (fuel : Nat) (e : String),
      download_game_bucket bucket status header stream fs hexDigest fuel =
          some (Except.error e) →
        bucketWorker bucket status header stream fs hexDigest fuel =
          some (LoopOutcome.panicked, 1, [])) ∧
    (∀ (bucket : DownloadBucket) (status : Nat) (header : String) (stream : List Nat)
        (fs : String → List Nat) (hexDigest : List Nat → String) (fuel : Nat)
        (out : LoopOutcome) (made : Nat) (log : List String),
      bucketWorker bucket status header stream fs hexDigest fuel =
          some (out, made, log) → made ≤ 1) := by
  refine ⟨rfl, ?_, ?_⟩
  · intro bucket status header stream fs hexDigest fuel e h
    unfold bucketWorker
    rw [h, workerLoop_error]
  · intro bucket status header stream fs hexDigest fuel out made log h
    unfold bucketWorker at h
    cases ha : download_game_bucket bucket status header stream fs hexDigest fuel with
    | none =>
      rw [ha, workerLoop_none] at h
      exact Option.noConfusion h
    | some r =>
      cases r with
      | ok v =>
        rw [ha, workerLoop_ok] at h
        simp only [Option.some.injEq, Prod.mk.injEq] at h
        omega
      | error e =>
        rw [ha, workerLoop_error] at h
        simp only [Option.some.injEq, Prod.mk.injEq] at h
        omega

/-- Witness for C3 at a non-200 status (the attempt errors). -/
theorem c3_no_retry_witness :
    (download_game_bucket ⟨"g", "v", [⟨0, "a", "p", 0, 1, "c", 0⟩]⟩ 404 "1" [7]
        (fun _ => []) (fun _ => "c") 3 = some (Except.error "failed to download chunk")) ∧
    (bucketWorker ⟨"g", "v", [⟨0, "a", "p", 0, 1, "c", 0⟩]⟩ 404 "1" [7]
        (fun _ => []) (fun _ => "c") 3 = some (LoopOutcome.panicked, 1, [])) ∧
    (1 : Nat) ≤ 1 :=
  ⟨rfl,
    c3_no_retry.2.1 ⟨"g", "v", [⟨0, "a", "p", 0, 1, "c", 0⟩]⟩ 404 "1" [7]
      (fun _ => []) (fun _ => "c") 3 "failed to download chunk" rfl,
    c3_no_retry.2.2 ⟨"g", "v", [⟨0, "a", "p", 0, 1, "c", 0⟩]⟩ 404 "1" [7]
      (fun _ => []) (fun _ => "c") 3 LoopOutcome.panicked 1 [] rfl⟩

/-- C10: on a successful attempt the worker appends to the completion log
exactly one entry per Drop of the bucket, each entry being the Drop's
expected checksum string from the manifest — the stream, filesystem contents
and digest function are arbitrary here, so the log is independent of the
downloaded data and never the hex encoding of a computed digest. -/
theorem c10_completion_log (bucket : DownloadBucket) (status : Nat) (header : String)
    (stream : List Nat) (fs : String → List Nat) (hexDigest : List Nat → String)
    (fuel : Nat) (r : List DropWriter × List String)
    (h : download_game_bucket bucket status header stream fs hexDigest fuel =
      some (Except.ok r)) :
    bucketWorker bucket status header stream fs hexDigest fuel =
        some (LoopOutcome.completed, 1, bucket.drops.map (fun d => d.checksum)) ∧
      (bucket.drops.map (fun d => d.checksum)).length = bucket.drops.length := by
  constructor
  · unfold bucketWorker
    rw [h, workerLoop_ok]
  · exact List.length_map _ _

/-- Witness for C10 at a concrete successful download. -/
theorem c10_completion_log_witness :
    (download_game_bucket ⟨"g", "v", [⟨0, "a", "p", 0, 1, "c", 0⟩]⟩ 200 "1" [7]
        (fun _ => []) (fun _ => "c") 3 = some (Except.ok ([⟨[7], 1, [7]⟩], []))) ∧
    (bucketWorker ⟨"g", "v", [⟨0, "a", "p", 0, 1, "c", 0⟩]⟩ 200 "1" [7]
        (fun _ => []) (fun _ => "c") 3 = some (LoopOutcome.completed, 1, ["c"])) :=
  ⟨rfl,
    (c10_completion_log ⟨"g", "v", [⟨0, "a", "p", 0, 1, "c", 0⟩]⟩ 200 "1" [7]
      (fun _ => []) (fun _ => "c") 3 ([⟨[7], 1, [7]⟩], []) rfl).1⟩
